import Mathlib

/-!
# Verification of the RAMSES domain-file reader (`yt/frontends/ramses/data_structures.py`)

A shallow embedding of the RAMSES AMR domain-file reader:

* the binary file is modelled at the granularity of Fortran framed records
  (the framing/length-marker validation itself is performed by the external
  `yt.utilities.fortran_utils` primitives `read_vector` / `read_attrs` / `skip`,
  which are not part of this repository's `src/`; per the spec, each logical
  field group is one length-delimited record, so a file is a `List Rec` and the
  read cursor is the number of records consumed);
* `RAMSESDomainFile._read_amr_header`, `._read_amr`, `.select`, `.count` and the
  `RAMSESGeometryHandler` chunking and initialization tail are translated
  function by function;
* Python `float` (IEEE double) values are modelled as `ℚ`; Python integers are
  `Int`/`Nat` (no overflow in CPython).

Error values model the Python exceptions the source can raise: reads past
end-of-file or malformed record payloads (`.eof` / `.badRecord`, the
`fortran_utils` and `CorruptHeaderError` failures), numpy shape errors
(`.valueError`), numpy out-of-range indexing (`.indexError`), the out-of-scope
variable reference in `_read_amr._ng` (`.nameError`, see `_ng` below), the
final cursor/end-of-file assertion of `_read_amr` (`.truncatedOrOversized`),
and `ZeroDivisionError` (`.zeroDivision`).
-/

namespace RamsesSpec

/-- A primitive value inside a framed record: the `fortran_utils` element types
`'i'`/`'I'` (integers), `'d'` (doubles, modelled as `ℚ`), `'c'` (characters). -/
inductive Val where
  | i : Int → Val
  | d : ℚ → Val
  | c : Nat → Val
deriving DecidableEq, Repr

/-- One framed record's payload (the external `fortran_utils` layer validates
and strips the length markers). -/
abbrev Rec := List Val

/-- A domain file, as the sequence of its framed records. -/
abbrev FileRecs := List Rec

/-- The Python exceptions reachable from the translated code. -/
inductive RErr where
  | eof
  | badRecord
  | valueError
  | indexError
  | nameError
  | truncatedOrOversized
  | zeroDivision
deriving DecidableEq, Repr

/-- An open file handle: the records not yet consumed, and the cursor
(`f.tell()`) measured in records consumed from the start of the file. -/
structure FH where
  recs : List Rec
  pos : Nat
deriving DecidableEq, Repr

/-- Decode a record as an integer vector (`fortran_utils.read_vector(f, 'i'/'I')`
fails unless every element has the declared type). -/
def decodeI : Rec → Option (List Int)
  | [] => some []
  | .i z :: r => (decodeI r).map (z :: ·)
  | _ => none

/-- Decode a record as a double vector. -/
def decodeD : Rec → Option (List ℚ)
  | [] => some []
  | .d q :: r => (decodeD r).map (q :: ·)
  | _ => none

/-- Decode a record as a character vector. -/
def decodeC : Rec → Option (List Nat)
  | [] => some []
  | .c ch :: r => (decodeC r).map (ch :: ·)
  | _ => none

/-- `fortran_utils.read_vector(f, 'i'/'I')`: consume one record, decoded as
integers. -/
def read_vector_i (f : FH) : Except RErr (List Int × FH) :=
  match f.recs with
  | [] => .error .eof
  | r :: rest =>
    match decodeI r with
    | none => .error .badRecord
    | some xs => .ok (xs, ⟨rest, f.pos + 1⟩)

/-- `fortran_utils.read_vector(f, 'd')`. -/
def read_vector_d (f : FH) : Except RErr (List ℚ × FH) :=
  match f.recs with
  | [] => .error .eof
  | r :: rest =>
    match decodeD r with
    | none => .error .badRecord
    | some xs => .ok (xs, ⟨rest, f.pos + 1⟩)

/-- `fortran_utils.read_vector(f, 'c')`. -/
def read_vector_c (f : FH) : Except RErr (List Nat × FH) :=
  match f.recs with
  | [] => .error .eof
  | r :: rest =>
    match decodeC r with
    | none => .error .badRecord
    | some xs => .ok (xs, ⟨rest, f.pos + 1⟩)

/-- `fortran_utils.skip(f, n)`: advance over `n` framed records, failing at
end-of-file (the length marker read fails there). -/
def skip (f : FH) (n : Nat) : Except RErr FH :=
  if n ≤ f.recs.length then .ok ⟨f.recs.drop n, f.pos + n⟩ else .error .eof

/-- `fortran_utils.read_attrs` for one `(name, n, 'i')` attribute: one record
whose payload length must equal the declared count. -/
def readAttrI (n : Nat) (f : FH) : Except RErr (List Int × FH) := do
  let (v, f) ← read_vector_i f
  if v.length = n then pure (v, f) else throw .badRecord

/-- A scalar `(name, 1, 'i')` attribute. -/
def readScalarI (f : FH) : Except RErr (Int × FH) := do
  let (v, f) ← read_vector_i f
  match v with
  | [x] => pure (x, f)
  | _ => throw .badRecord

/-- A scalar `(name, 1, 'd')` attribute. -/
def readScalarD (f : FH) : Except RErr (ℚ × FH) := do
  let (v, f) ← read_vector_d f
  match v with
  | [x] => pure (x, f)
  | _ => throw .badRecord

section DecodeLemmas

theorem decodeI_map (xs : List Int) : decodeI (xs.map Val.i) = some xs := by
  induction xs with
  | nil => rfl
  | cons x xs ih => simp [decodeI, ih]

theorem decodeD_map (xs : List ℚ) : decodeD (xs.map Val.d) = some xs := by
  induction xs with
  | nil => rfl
  | cons x xs ih => simp [decodeD, ih]

theorem decodeC_map (xs : List Nat) : decodeC (xs.map Val.c) = some xs := by
  induction xs with
  | nil => rfl
  | cons x xs ih => simp [decodeC, ih]

theorem read_vector_i_cons (xs : List Int) (rest : List Rec) (p : Nat) :
    read_vector_i ⟨xs.map Val.i :: rest, p⟩ = .ok (xs, ⟨rest, p + 1⟩) := by
  simp [read_vector_i, decodeI_map]

theorem read_vector_d_cons (xs : List ℚ) (rest : List Rec) (p : Nat) :
    read_vector_d ⟨xs.map Val.d :: rest, p⟩ = .ok (xs, ⟨rest, p + 1⟩) := by
  simp [read_vector_d, decodeD_map]

theorem read_vector_c_cons (xs : List Nat) (rest : List Rec) (p : Nat) :
    read_vector_c ⟨xs.map Val.c :: rest, p⟩ = .ok (xs, ⟨rest, p + 1⟩) := by
  simp [read_vector_c, decodeC_map]

theorem skip_append (front rest : List Rec) (p : Nat) :
    skip ⟨front ++ rest, p⟩ front.length = .ok ⟨rest, p + front.length⟩ := by
  simp [skip]

end DecodeLemmas

/-! ## The AMR header (`RAMSESDomainFile._read_amr_header`) -/

/-- The parsed AMR header mapping (`self.amr_header`), restricted to the fields
this subsystem reads: `ncpu`, `nx`, `nlevelmax`, `nboundary`, `boxlen`, and
`numbl` reshaped to `nlevelmax` rows of `ncpu` columns. -/
structure AmrHeader where
  ncpu : Nat
  nx : List Int
  nlevelmax : Nat
  nboundary : Int
  boxlen : ℚ
  numbl : List (List Int)
deriving DecidableEq, Repr

/-- The raw header values as read by the schema, before the `numbl` reshape. -/
structure HVals where
  ncpu : Int
  nx : List Int
  nlevelmax : Int
  nboundary : Int
  boxlen : ℚ
  numbl : List Int
deriving DecidableEq, Repr

/-- Modelled from the spec: the external Header Schema (`ramses_header` in the
repository's `definitions` module, which is not under `src/`) is an ordered
list of `(name, count, type)` attribute triples, each read as one framed
record by `fortran_utils.read_attrs` (which validates the record length
against the declared count); it includes at least `ncpu`, `nlevelmax`,
`nboundary`, `numbl` (flat, `nlevelmax * ncpu` entries) and `boxlen`-derived
sizing. We model exactly these fields, plus `nx` (used later by the Geometry
Handler), each as one framed record. -/
def readHeaderSchema (f : FH) : Except RErr (HVals × FH) := do
  let (ncpu, f) ← readScalarI f
  let (nx, f) ← readAttrI 3 f
  let (nlevelmax, f) ← readScalarI f
  let (nboundary, f) ← readScalarI f
  let (boxlen, f) ← readScalarD f
  let (numbl, f) ← read_vector_i f
  pure (⟨ncpu, nx, nlevelmax, nboundary, boxlen, numbl⟩, f)

/-- The number of framed records consumed by the modelled Header Schema. -/
def schemaRecCount : Nat := 6

/-- Row-major reshape of a flat vector into `rows` rows of `cols` columns
(`na.array(...).reshape((rows, cols))`; the caller checks the total size). -/
def reshapeRows : List Int → Nat → Nat → List (List Int)
  | _, 0, _ => []
  | flat, r + 1, cols => flat.take cols :: reshapeRows (flat.drop cols) r cols

/-- numpy index semantics for axis length `n`: a negative index wraps once;
out-of-range raises `IndexError` (`none`). -/
def npIndex (n : Nat) (i : Int) : Option Nat :=
  if 0 ≤ i ∧ i < (n : Int) then some i.toNat
  else if -(n : Int) ≤ i ∧ i < 0 then some (i + n).toNat
  else none

/-- Sum of column `j` of a row matrix (`numbl[:, j].sum()`; rows are in bounds
whenever the matrix came out of the header reshape). -/
def colSum (m : List (List Int)) (j : Nat) : Int :=
  (m.map (fun row => row.getD j 0)).sum

/-- The per-domain reader state produced by `_read_amr_header`: the parsed
header, `self.amr_offset` (cursor position, in records, at the start of the
per-level/per-domain grid data), and `self.local_oct_count`.  Note that the
`ngridbound` vector read during the header parse is a *local variable* of
`_read_amr_header` in the source: it is never stored on `self`, so it is
deliberately absent from this state. -/
structure DomainState where
  amr_header : AmrHeader
  amr_offset : Nat
  local_oct_count : Int
deriving DecidableEq, Repr

/-- `RAMSESDomainFile._read_amr_header` (source lines 70-89): read the schema
groups, reshape `numbl` to `(nlevelmax, ncpu)` (a `ValueError` if the sizes
disagree), skip one record, if `nboundary > 0` skip two records and read the
`ngridbound` integer vector (into a local variable, discarded on return),
read the 5-integer `free_mem` attribute, read the `ordering` character
vector, skip four records; then record the cursor as `amr_offset` and compute
`local_oct_count = numbl[:, domain_id - 1].sum()`. -/
def _read_amr_header (domain_id : Int) (file : FileRecs) : Except RErr DomainState := do
  let f : FH := ⟨file, 0⟩
  let (hv, f) ← readHeaderSchema f
  if 0 ≤ hv.nlevelmax ∧ 0 ≤ hv.ncpu ∧
      hv.numbl.length = hv.nlevelmax.toNat * hv.ncpu.toNat then
    let numbl := reshapeRows hv.numbl hv.nlevelmax.toNat hv.ncpu.toNat
    let f ← skip f 1
    let f ← (if 0 < hv.nboundary then do
        let f ← skip f 2
        let (_ngridbound, f) ← read_vector_i f
        pure f
      else pure f)
    let (_free_mem, f) ← readAttrI 5 f
    let (_ordering, f) ← read_vector_c f
    let f ← skip f 4
    match npIndex hv.ncpu.toNat (domain_id - 1) with
    | none => throw .indexError
    | some j =>
        pure { amr_header := ⟨hv.ncpu.toNat, hv.nx, hv.nlevelmax.toNat, hv.nboundary,
                              hv.boxlen, numbl⟩,
               amr_offset := f.pos,
               local_oct_count := colSum numbl j }
  else
    throw .valueError

/-! ## Populate (`RAMSESDomainFile._read_amr`) -/

/-- One call `oct_handler.add(cpu + 1, level, ng, pos, ind, cpu_map)` submitted
to the external Octree Container.  `pos` is the `ng×3` position matrix as its
list of rows; `cpu_map` is the `ng×8` owning-domain matrix as its list of 8
column vectors (the source fills it column by column). -/
structure AddCall where
  owner : Nat
  level : Nat
  ng : Int
  pos : List (ℚ × ℚ × ℚ)
  ind : List Int
  cpu_map : List (List Int)
deriving DecidableEq, Repr

/-- The nested helper `_ng(c, l)` of `_read_amr` (source lines 96-102):

* `c < ncpu`: `ng = self.amr_header['numbl'][l, c]` (an `IndexError` if out of
  bounds, which the loop bounds prevent);
* otherwise the source evaluates
  `ngridbound[c - self.amr_header['ncpu'] + self.amr_header['nboundary']*l]`.
  But `ngridbound` is a local variable of `_read_amr_header` (line 81), never
  assigned to `self` and not bound anywhere in `_read_amr` or at module level,
  and Python closures only capture enclosing *function* scopes — so this
  branch raises `NameError: name 'ngridbound' is not defined` before any
  subscript is taken.  It is modelled as `.error .nameError`. -/
def _ng (h : AmrHeader) (c l : Nat) : Except RErr Int :=
  if c < h.ncpu then
    match h.numbl[l]? with
    | some row =>
      match row[c]? with
      | some v => .ok v
      | none => .error .indexError
    | none => .error .indexError
  else
    .error .nameError

/-- Read `k` integer vectors, each required to have length `n` — the
`for i in range(8): m[:,i] = fpu.read_vector(f, "I")` loops filling the
`ng×8` matrices (the numpy column assignment fails unless the vector length
matches the column height). -/
def readCols (n : Nat) : Nat → FH → Except RErr (List (List Int) × FH)
  | 0, f => pure ([], f)
  | k + 1, f => do
    let (v, f) ← read_vector_i f
    if v.length = n then do
      let (vs, f) ← readCols n k f
      pure (v :: vs, f)
    else throw .valueError

/-- Scale one position row by the snapshot's domain width
(`pos *= self.pf.domain_width`, componentwise over the three columns). -/
def scaleRow (w : ℚ × ℚ × ℚ) (t : ℚ × ℚ × ℚ) : ℚ × ℚ × ℚ :=
  (t.1 * w.1, t.2.1 * w.2.1, t.2.2 * w.2.2)

/-- The `ng×3` position matrix assembled from the three double vectors and
scaled by the domain width.  The translation by the domain left edge is
commented out in the source (line 116) and therefore absent here. -/
def mkPos (xs ys zs : List ℚ) (w : ℚ × ℚ × ℚ) : List (ℚ × ℚ × ℚ) :=
  (xs.zip (ys.zip zs)).map (scaleRow w)

/-- The body of `_read_amr`'s loop for one `(level, cpu)` pair (source lines
106-132): look up `ng`; if zero, read nothing; otherwise read the grid-index
vector, skip 2, read the three position vectors (scaled by the domain width —
each numpy column assignment requires length `ng`, and `na.empty((ng, 3))`
raises `ValueError` for negative `ng`), read and discard the parent vector,
skip 6, read the `ng×8` child, owning-domain and refinement-map matrices,
then submit `add(cpu+1, level, ng, pos, ind, cpu_map)` to the container if
and only if `cpu + 1 >= self.domain_id`. -/
def readChunk (domain_id : Int) (h : AmrHeader) (w : ℚ × ℚ × ℚ) (level cpu : Nat)
    (f : FH) : Except RErr (List AddCall × FH) := do
  let ng ← _ng h cpu level
  if ng = 0 then pure ([], f)
  else do
    let (ind, f) ← read_vector_i f
    let f ← skip f 2
    if ng < 0 then throw .valueError
    else do
      let (xs, f) ← read_vector_d f
      if xs.length = ng.toNat then do
        let (ys, f) ← read_vector_d f
        if ys.length = ng.toNat then do
          let (zs, f) ← read_vector_d f
          if zs.length = ng.toNat then do
            let (_parents, f) ← read_vector_i f
            let f ← skip f 6
            let (_children, f) ← readCols ng.toNat 8 f
            let (cpu_map, f) ← readCols ng.toNat 8 f
            let (_rmap, f) ← readCols ng.toNat 8 f
            if domain_id ≤ (cpu : Int) + 1 then
              pure ([⟨cpu + 1, level, ng, mkPos xs ys zs w, ind, cpu_map⟩], f)
            else
              pure ([], f)
          else throw .valueError
        else throw .valueError
      else throw .valueError

/-- The `(level, cpu)` iteration order of `_read_amr`:
`for level in range(nlevelmax): for cpu in range(nboundary + ncpu)`. -/
def levelCpuPairs (h : AmrHeader) : List (Nat × Nat) :=
  (List.range h.nlevelmax).flatMap fun l =>
    (List.range (h.nboundary + h.ncpu).toNat).map fun c => (l, c)

/-- The double loop of `_read_amr` over a list of `(level, cpu)` pairs,
collecting the container submissions in order. -/
def readAmrLoop (d : Int) (h : AmrHeader) (w : ℚ × ℚ × ℚ) :
    List (Nat × Nat) → FH → Except RErr (List AddCall × FH)
  | [], f => pure ([], f)
  | lc :: rest, f => do
    let (adds, f) ← readChunk d h w lc.1 lc.2 f
    let (more, f) ← readAmrLoop d h w rest f
    pure (adds ++ more, f)

/-- `RAMSESDomainFile._read_amr` (source lines 91-136): re-open the file, seek
to `amr_offset`, run the level/cpu loop, and finally assert that the cursor
equals end-of-file (`cur = f.tell(); f.seek(0, os.SEEK_END); assert cur ==
f.tell()`) — the failure of that assertion is the spec's
`TruncatedOrOversizedFileError`.  Returns the submissions made to the Octree
Container, in order. -/
def _read_amr (d : Int) (h : AmrHeader) (w : ℚ × ℚ × ℚ) (amr_offset : Nat)
    (file : FileRecs) : Except RErr (List AddCall) := do
  let f : FH := ⟨file.drop amr_offset, amr_offset⟩
  let (adds, f) ← readAmrLoop d h w (levelCpuPairs h) f
  if f.pos = file.length then pure adds else throw .truncatedOrOversized

/-- Header parse followed by populate, as driven by
`RAMSESGeometryHandler._initialize_oct_handler` for one domain. -/
def populate (d : Int) (w : ℚ × ℚ × ℚ) (file : FileRecs) :
    Except RErr (DomainState × List AddCall) := do
  let st ← _read_amr_header d file
  let adds ← _read_amr d st.amr_header w st.amr_offset file
  pure (st, adds)

/-! ## Well-formed domain files

A generative description of the binary layout documented in the spec (§6):
header records followed, per `(level, owner)` pair with a nonzero grid count,
by the 37 records of one grid group.  A file is *well-formed* when it is
exactly of this shape for its own header values. -/

/-- The data of one domain file's header region: the schema fields plus the
payloads of the skipped records, the boundary vector, `free_mem` and
`ordering`. -/
structure HeaderData where
  ncpu : Nat
  nx : List Int
  nlevelmax : Nat
  nboundary : Nat
  boxlen : ℚ
  numbl : List Int
  skip0 : Rec
  bskip1 : Rec
  bskip2 : Rec
  ngridbound : List Int
  free_mem : List Int
  ordering : List Nat
  tskip1 : Rec
  tskip2 : Rec
  tskip3 : Rec
  tskip4 : Rec

/-- Header sanity: declared vector lengths match their records, and the grid
counts are non-negative (the spec's `numbl` invariant; the on-disk counts are
grid numbers). -/
def HeaderData.wf (hd : HeaderData) : Prop :=
  hd.nx.length = 3 ∧
  hd.numbl.length = hd.nlevelmax * hd.ncpu ∧
  hd.free_mem.length = 5 ∧
  (∀ x ∈ hd.numbl, 0 ≤ x) ∧
  (∀ x ∈ hd.ngridbound, 0 ≤ x) ∧
  (0 < hd.nboundary → hd.ngridbound.length = hd.nboundary * hd.nlevelmax)

/-- The six schema records of the header. -/
def HeaderData.schemaRecs (hd : HeaderData) : List Rec :=
  [[Val.i hd.ncpu], hd.nx.map Val.i, [Val.i hd.nlevelmax], [Val.i hd.nboundary],
   [Val.d hd.boxlen], hd.numbl.map Val.i]

/-- All header-region records, in file order. -/
def HeaderData.recs (hd : HeaderData) : List Rec :=
  hd.schemaRecs ++ [hd.skip0]
    ++ (if 0 < hd.nboundary then [hd.bskip1, hd.bskip2, hd.ngridbound.map Val.i] else [])
    ++ [hd.free_mem.map Val.i, hd.ordering.map Val.c,
        hd.tskip1, hd.tskip2, hd.tskip3, hd.tskip4]

/-- The header as `_read_amr_header` parses it. -/
def HeaderData.toAmrHeader (hd : HeaderData) : AmrHeader :=
  ⟨hd.ncpu, hd.nx, hd.nlevelmax, (hd.nboundary : Int), hd.boxlen,
   reshapeRows hd.numbl hd.nlevelmax hd.ncpu⟩

/-- The grid count the *file format* prescribes for `(level l, owner c)`:
`numbl[l, c]` for a real decomposition domain, and
`ngridbound[c - ncpu + nboundary * l]` for a boundary domain (spec §4.1/§6). -/
def fmtNg (hd : HeaderData) (l c : Nat) : Int :=
  if c < hd.ncpu then hd.numbl.getD (l * hd.ncpu + c) 0
  else hd.ngridbound.getD (c - hd.ncpu + hd.nboundary * l) 0

/-- The payloads of the 37 records of one grid group. -/
structure GroupData where
  ind : List Int
  s1 : Rec
  s2 : Rec
  xs : List ℚ
  ys : List ℚ
  zs : List ℚ
  parents : List Int
  s3 : Rec
  s4 : Rec
  s5 : Rec
  s6 : Rec
  s7 : Rec
  s8 : Rec
  children : List (List Int)
  cpu_map : List (List Int)
  rmap : List (List Int)

/-- A grid group for `n` grids: the per-grid vectors have length `n` and the
three matrices have 8 columns of height `n`. -/
def GroupData.wf (g : GroupData) (n : Nat) : Prop :=
  g.ind.length = n ∧ g.xs.length = n ∧ g.ys.length = n ∧ g.zs.length = n ∧
  g.parents.length = n ∧
  g.children.length = 8 ∧ g.cpu_map.length = 8 ∧ g.rmap.length = 8 ∧
  (∀ v ∈ g.children, v.length = n) ∧ (∀ v ∈ g.cpu_map, v.length = n) ∧
  (∀ v ∈ g.rmap, v.length = n)

/-- Columns of an integer matrix as framed records. -/
def colsRecs (cols : List (List Int)) : List Rec :=
  cols.map (fun v => v.map Val.i)

/-- The 37 records of one grid group, in file order. -/
def GroupData.recs (g : GroupData) : List Rec :=
  [g.ind.map Val.i, g.s1, g.s2, g.xs.map Val.d, g.ys.map Val.d, g.zs.map Val.d,
   g.parents.map Val.i, g.s3, g.s4, g.s5, g.s6, g.s7, g.s8]
    ++ colsRecs g.children ++ colsRecs g.cpu_map ++ colsRecs g.rmap

/-- The container submission `_read_amr` performs for this group when the
ownership test passes. -/
def GroupData.add (g : GroupData) (level cpu : Nat) (ng : Int) (w : ℚ × ℚ × ℚ) :
    AddCall :=
  ⟨cpu + 1, level, ng, mkPos g.xs g.ys g.zs w, g.ind, g.cpu_map⟩

/-- The `(level, cpu)` pairs of the file format, in file order. -/
def bodyPairs (hd : HeaderData) : List (Nat × Nat) :=
  (List.range hd.nlevelmax).flatMap fun l =>
    (List.range (hd.nboundary + hd.ncpu)).map fun c => (l, c)

/-- The grid-data region of a well-formed file: for each `(level, cpu)` pair
in iteration order with a nonzero format grid count, that pair's group
records. -/
def bodyRecs (hd : HeaderData) (G : Nat → Nat → GroupData) : List Rec :=
  (bodyPairs hd).flatMap
    fun lc => if fmtNg hd lc.1 lc.2 = 0 then [] else (G lc.1 lc.2).recs

/-- A complete well-formed domain file for header `hd` and group contents `G`. -/
def mkAmrFile (hd : HeaderData) (G : Nat → Nat → GroupData) : FileRecs :=
  hd.recs ++ bodyRecs hd G

/-- Every group prescribed by the format is well-formed for its own count. -/
def GroupsWf (hd : HeaderData) (G : Nat → Nat → GroupData) : Prop :=
  ∀ l < hd.nlevelmax, ∀ c < hd.nboundary + hd.ncpu,
    (G l c).wf (fmtNg hd l c).toNat

/-- A well-formed domain file: its record layout is exactly the one its own
header prescribes (spec §6). -/
def WellFormedAmr (file : FileRecs) : Prop :=
  ∃ hd G, hd.wf ∧ GroupsWf hd G ∧ file = mkAmrFile hd G

/-! ## The header parse on a well-formed file -/

@[simp] theorem ok_bind {α β : Type} (a : α) (k : α → Except RErr β) :
    (Except.ok a : Except RErr α) >>= k = k a := rfl

@[simp] theorem error_bind {α β : Type} (e : RErr) (k : α → Except RErr β) :
    (Except.error e : Except RErr α) >>= k = .error e := rfl

@[simp] theorem pure_ok {α : Type} (a : α) :
    (pure a : Except RErr α) = .ok a := rfl

theorem skip_cons2 (a b : Rec) (rest : List Rec) (p : Nat) :
    skip ⟨a :: b :: rest, p⟩ 2 = .ok ⟨rest, p + 2⟩ := by
  unfold skip
  rw [if_pos (by simp)]
  rfl

theorem skip_cons6 (a b c d e f : Rec) (rest : List Rec) (p : Nat) :
    skip ⟨a :: b :: c :: d :: e :: f :: rest, p⟩ 6 = .ok ⟨rest, p + 6⟩ := by
  unfold skip
  rw [if_pos (by simp)]
  rfl

theorem headerData_recs_length (hd : HeaderData) :
    hd.recs.length = 13 + (if 0 < hd.nboundary then 3 else 0) := by
  by_cases hb : 0 < hd.nboundary <;>
    simp [HeaderData.recs, HeaderData.schemaRecs, hb]

/-- `_read_amr_header` on a well-formed header region (with anything after it):
it succeeds, parses exactly the written fields, leaves `amr_offset` at the
first record after the header region, and computes `local_oct_count` as the
sum of this domain's `numbl` column. -/
theorem read_amr_header_spec (hd : HeaderData) (hwf : hd.wf) (d : Int)
    (hd1 : 1 ≤ d) (hd2 : d ≤ (hd.ncpu : Int)) (rest : List Rec) :
    _read_amr_header d (hd.recs ++ rest) =
      .ok ⟨hd.toAmrHeader, hd.recs.length,
           colSum (reshapeRows hd.numbl hd.nlevelmax hd.ncpu) (d - 1).toNat⟩ := by
  obtain ⟨h1, h2, h3, _h4, _h5, _h6⟩ := hwf
  have hidx : npIndex hd.ncpu (d - 1) = some (d - 1).toNat := by
    have : 0 ≤ d - 1 ∧ d - 1 < (hd.ncpu : Int) := by omega
    simp [npIndex, this]
  by_cases hb : 0 < hd.nboundary
  · simp [_read_amr_header, readHeaderSchema, readScalarI, readScalarD, readAttrI,
      HeaderData.recs, HeaderData.schemaRecs, hb,
      read_vector_i, read_vector_d, read_vector_c, decodeI, decodeD, decodeC,
      decodeI_map, decodeD_map, decodeC_map, skip,
      h1, h2, h3, hidx, HeaderData.toAmrHeader]
  · simp [_read_amr_header, readHeaderSchema, readScalarI, readScalarD, readAttrI,
      HeaderData.recs, HeaderData.schemaRecs, hb,
      read_vector_i, read_vector_d, read_vector_c, decodeI, decodeD, decodeC,
      decodeI_map, decodeD_map, decodeC_map, skip,
      h1, h2, h3, hidx, HeaderData.toAmrHeader]

/-! ## Populate on a well-formed file -/

theorem readCols_spec (n : Nat) (cols : List (List Int))
    (hc : ∀ v ∈ cols, v.length = n) (rest : List Rec) (p : Nat) :
    readCols n cols.length ⟨colsRecs cols ++ rest, p⟩ =
      .ok (cols, ⟨rest, p + cols.length⟩) := by
  induction cols generalizing p with
  | nil => simp [readCols, colsRecs]
  | cons v vs ih =>
    have hv : v.length = n := hc v (by simp)
    have ih' := ih (fun u hu => hc u (by simp [hu])) (p + 1)
    simp only [List.length_cons, colsRecs, List.map_cons, List.cons_append, readCols,
      read_vector_i_cons, ok_bind, hv, if_pos rfl]
    simp only [colsRecs] at ih'
    rw [ih']
    have hp : p + 1 + vs.length = p + (vs.length + 1) := by omega
    simp [hp]

/-- `GroupData.recs` really is 37 records. -/
theorem groupData_recs_length (g : GroupData) (n : Nat) (hg : g.wf n) :
    g.recs.length = 37 := by
  obtain ⟨-, -, -, -, -, h6, h7, h8, -, -, -⟩ := hg
  simp [GroupData.recs, colsRecs, h6, h7, h8]

/-- The loop body on one well-formed grid group with a nonzero count: all 37
records of the group (and nothing else) are consumed regardless of the
ownership test, and the group is submitted to the container exactly when
`cpu + 1 >= domain_id`. -/
theorem readChunk_spec (d : Int) (h : AmrHeader) (w : ℚ × ℚ × ℚ)
    (level cpu : Nat) (g : GroupData) (ng : Int)
    (hng : _ng h cpu level = .ok ng) (hpos : 0 < ng) (hg : g.wf ng.toNat)
    (rest : List Rec) (p : Nat) :
    readChunk d h w level cpu ⟨g.recs ++ rest, p⟩ =
      .ok ((if d ≤ (cpu : Int) + 1 then [g.add level cpu ng w] else []),
           ⟨rest, p + 37⟩) := by
  obtain ⟨_g1, g2, g3, g4, _g5, g6, g7, g8, g9, g10, g11⟩ := hg
  have hne : ¬ (ng = 0) := by omega
  have hneg : ¬ (ng < 0) := by omega
  have c1 := readCols_spec ng.toNat g.children g9
  have c2 := readCols_spec ng.toNat g.cpu_map g10
  have c3 := readCols_spec ng.toNat g.rmap g11
  rw [g6] at c1; rw [g7] at c2; rw [g8] at c3
  simp only [GroupData.recs, List.cons_append, List.append_assoc]
  simp only [readChunk, hng, ok_bind, if_neg hne, if_neg hneg,
    read_vector_i_cons, ok_bind, skip_cons2, skip_cons6,
    read_vector_d_cons, g2, g3, g4, if_pos rfl]
  simp only [if_true, List.nil_append, c1, ok_bind, c2, c3]
  have hp : p + 1 + 2 + 1 + 1 + 1 + 1 + 6 + 8 + 8 + 8 = p + 37 := by omega
  by_cases hsub : d ≤ (cpu : Int) + 1 <;>
    simp [hsub, GroupData.add, hp]

/-- Grid count as the loop computes it, with errors mapped to `0`; the layout
lemmas only apply it where `_ng` succeeds. -/
def ngCode (h : AmrHeader) (c l : Nat) : Int :=
  match _ng h c l with
  | .ok ng => ng
  | .error _ => 0

/-- Records consumed by the loop over a list of `(level, cpu)` pairs. -/
def pairsRecs (h : AmrHeader) (G : Nat → Nat → GroupData)
    (ps : List (Nat × Nat)) : List Rec :=
  ps.flatMap fun lc => if ngCode h lc.2 lc.1 = 0 then [] else (G lc.1 lc.2).recs

/-- Submissions issued by the loop over a list of `(level, cpu)` pairs: one
`add` per nonzero-count group whose owner passes `cpu + 1 >= domain_id`. -/
def pairsAdds (d : Int) (h : AmrHeader) (w : ℚ × ℚ × ℚ)
    (G : Nat → Nat → GroupData) (ps : List (Nat × Nat)) : List AddCall :=
  ps.flatMap fun lc =>
    if ngCode h lc.2 lc.1 = 0 then []
    else if d ≤ (lc.2 : Int) + 1 then
      [(G lc.1 lc.2).add lc.1 lc.2 (ngCode h lc.2 lc.1) w]
    else []

/-- The loop on a record region laid out exactly for its pairs: it consumes
the region and issues exactly the `pairsAdds` submissions. -/
theorem readAmrLoop_spec (d : Int) (h : AmrHeader) (w : ℚ × ℚ × ℚ)
    (G : Nat → Nat → GroupData) (ps : List (Nat × Nat))
    (H : ∀ lc ∈ ps, ∃ ng, _ng h lc.2 lc.1 = .ok ng ∧ 0 ≤ ng ∧
      (G lc.1 lc.2).wf ng.toNat)
    (rest : List Rec) (p : Nat) :
    readAmrLoop d h w ps ⟨pairsRecs h G ps ++ rest, p⟩ =
      .ok (pairsAdds d h w G ps, ⟨rest, p + (pairsRecs h G ps).length⟩) := by
  induction ps generalizing p with
  | nil => simp [readAmrLoop, pairsRecs, pairsAdds]
  | cons lc ps ih =>
    obtain ⟨ng, hng, hge, hwf⟩ := H lc (by simp)
    have ih' := fun q => ih (fun x hx => H x (by simp [hx])) q
    have hcode : ngCode h lc.2 lc.1 = ng := by simp [ngCode, hng]
    by_cases h0 : ng = 0
    · simp only [pairsRecs, pairsAdds, List.flatMap_cons, hcode, h0, if_pos rfl,
        List.nil_append, readAmrLoop, readChunk, hng, ok_bind, ite_true]
      simp only [pure_ok, ok_bind]
      simp only [pairsRecs, pairsAdds] at ih'
      rw [ih']
      simp
    · have hpos : 0 < ng := by omega
      have hchunk := readChunk_spec d h w lc.1 lc.2 (G lc.1 lc.2) ng hng hpos hwf
      have hlen := groupData_recs_length (G lc.1 lc.2) ng.toNat hwf
      simp only [pairsRecs, pairsAdds, List.flatMap_cons, hcode, if_neg h0,
        List.append_assoc, readAmrLoop]
      rw [hchunk]
      simp only [ok_bind]
      simp only [pairsRecs, pairsAdds] at ih'
      rw [ih']
      simp only [ok_bind, pure_ok, Except.ok.injEq, Prod.mk.injEq, FH.mk.injEq,
        List.length_append, hlen, true_and]
      omega

/-! ## Bridging the file format and the loop lookups -/

theorem reshapeRows_getElem? (flat : List Int) (r cols l : Nat) (hl : l < r) :
    (reshapeRows flat r cols)[l]? = some ((flat.drop (l * cols)).take cols) := by
  induction r generalizing flat l with
  | zero => omega
  | succ r ih =>
    cases l with
    | zero => simp [reshapeRows]
    | succ l =>
      have hl' : l < r := by omega
      simp only [reshapeRows, List.getElem?_cons_succ, ih (flat.drop cols) l hl',
        List.drop_drop]
      have : cols + l * cols = (l + 1) * cols := by ring
      rw [this]

theorem take_drop_length (flat : List Int) (r cols l : Nat) (hl : l < r)
    (hflat : flat.length = r * cols) :
    ((flat.drop (l * cols)).take cols).length = cols := by
  have h1 : (l + 1) * cols ≤ r * cols := Nat.mul_le_mul_right cols (by omega)
  have h2 : (l + 1) * cols = l * cols + cols := by ring
  simp only [List.length_take, List.length_drop, hflat]
  omega

/-- On a real decomposition domain (`c < ncpu`), `_ng` looks up the reshaped
`numbl` and agrees with the flat file-format count. -/
theorem ng_numbl (hd : HeaderData) (l c : Nat)
    (hnumbl : hd.numbl.length = hd.nlevelmax * hd.ncpu)
    (hl : l < hd.nlevelmax) (hc : c < hd.ncpu) :
    _ng hd.toAmrHeader c l = .ok (hd.numbl.getD (l * hd.ncpu + c) 0) := by
  have hrow := reshapeRows_getElem? hd.numbl hd.nlevelmax hd.ncpu l hl
  have hlen := take_drop_length hd.numbl hd.nlevelmax hd.ncpu l hl hnumbl
  have hidx : l * hd.ncpu + c < hd.numbl.length := by
    have h1 : (l + 1) * hd.ncpu ≤ hd.nlevelmax * hd.ncpu :=
      Nat.mul_le_mul_right hd.ncpu (by omega)
    have h2 : (l + 1) * hd.ncpu = l * hd.ncpu + hd.ncpu := by ring
    omega
  have helem : ((hd.numbl.drop (l * hd.ncpu)).take hd.ncpu)[c]? =
      some (hd.numbl.getD (l * hd.ncpu + c) 0) := by
    rw [List.getElem?_take, if_pos hc, List.getElem?_drop,
      List.getElem?_eq_getElem (by omega)]
    simp [List.getD, List.getElem?_eq_getElem hidx]
  simp only [_ng, HeaderData.toAmrHeader, if_pos hc, hrow, helem]

theorem fmtNg_real (hd : HeaderData) (l c : Nat) (hc : c < hd.ncpu) :
    fmtNg hd l c = hd.numbl.getD (l * hd.ncpu + c) 0 := if_pos hc

theorem numbl_getD_nonneg (hd : HeaderData) (hpos : ∀ x ∈ hd.numbl, 0 ≤ x)
    (i : Nat) : 0 ≤ hd.numbl.getD i 0 := by
  by_cases hi : i < hd.numbl.length
  · rw [List.getD_eq_getElem _ _ hi]
    exact hpos _ (List.getElem_mem hi)
  · rw [List.getD_eq_default _ _ (by omega)]

theorem mem_bodyPairs (hd : HeaderData) (lc : Nat × Nat) :
    lc ∈ bodyPairs hd ↔ lc.1 < hd.nlevelmax ∧ lc.2 < hd.nboundary + hd.ncpu := by
  cases lc with
  | mk l c =>
    simp only [bodyPairs, List.mem_flatMap, List.mem_map, List.mem_range,
      Prod.mk.injEq]
    constructor
    · rintro ⟨a, ha, b, hb, h1, h2⟩
      exact ⟨h1 ▸ ha, h2 ▸ hb⟩
    · rintro ⟨h1, h2⟩
      exact ⟨l, h1, c, h2, rfl, rfl⟩

theorem levelCpuPairs_toAmrHeader (hd : HeaderData) :
    levelCpuPairs hd.toAmrHeader = bodyPairs hd := by
  simp only [levelCpuPairs, bodyPairs, HeaderData.toAmrHeader]
  have : ((hd.nboundary : Int) + (hd.ncpu : Int)).toNat = hd.nboundary + hd.ncpu := by
    omega
  rw [this]

theorem flatMap_congr_mem {α β : Type} (l : List α) (f g : α → List β)
    (h : ∀ x ∈ l, f x = g x) : l.flatMap f = l.flatMap g := by
  induction l with
  | nil => rfl
  | cons a l ih =>
    simp only [List.flatMap_cons, h a (by simp), ih (fun x hx => h x (by simp [hx]))]

/-- On a pair inside the loop range of a boundary-free header, the code's
count agrees with the format's count. -/
theorem ngCode_eq_fmtNg (hd : HeaderData) (lc : Nat × Nat)
    (hnumbl : hd.numbl.length = hd.nlevelmax * hd.ncpu)
    (hnb : hd.nboundary = 0) (hmem : lc ∈ bodyPairs hd) :
    ngCode hd.toAmrHeader lc.2 lc.1 = fmtNg hd lc.1 lc.2 := by
  obtain ⟨hl, hc⟩ := (mem_bodyPairs hd lc).mp hmem
  rw [hnb] at hc
  simp only [Nat.zero_add] at hc
  rw [ngCode, ng_numbl hd lc.1 lc.2 hnumbl hl hc, fmtNg_real hd lc.1 lc.2 hc]

/-- With no boundary domains, the format region coincides with the region the
loop consumes. -/
theorem bodyRecs_eq_pairsRecs (hd : HeaderData) (G : Nat → Nat → GroupData)
    (hnumbl : hd.numbl.length = hd.nlevelmax * hd.ncpu)
    (hnb : hd.nboundary = 0) :
    bodyRecs hd G = pairsRecs hd.toAmrHeader G (bodyPairs hd) := by
  refine flatMap_congr_mem _ _ _ (fun lc hmem => ?_)
  rw [ngCode_eq_fmtNg hd lc hnumbl hnb hmem]

/-- The loop hypothesis holds on every pair of a boundary-free well-formed
file. -/
theorem pairs_hyp (hd : HeaderData) (G : Nat → Nat → GroupData)
    (hwf : hd.wf) (hnb : hd.nboundary = 0) (hG : GroupsWf hd G) :
    ∀ lc ∈ bodyPairs hd, ∃ ng, _ng hd.toAmrHeader lc.2 lc.1 = .ok ng ∧ 0 ≤ ng ∧
      (G lc.1 lc.2).wf ng.toNat := by
  intro lc hmem
  obtain ⟨hl, hc0⟩ := (mem_bodyPairs hd lc).mp hmem
  have hc : lc.2 < hd.ncpu := by omega
  refine ⟨hd.numbl.getD (lc.1 * hd.ncpu + lc.2) 0,
    ng_numbl hd lc.1 lc.2 hwf.2.1 hl hc,
    numbl_getD_nonneg hd hwf.2.2.2.1 _, ?_⟩
  have hGlc := hG lc.1 hl lc.2 hc0
  rw [fmtNg_real hd lc.1 lc.2 hc] at hGlc
  exact hGlc

/-- `_read_amr` on a well-formed boundary-free file: it succeeds, the loop
leaves the cursor exactly at end-of-file, and the submissions are exactly the
nonzero-count groups that pass the ownership test. -/
theorem read_amr_wellFormed (hd : HeaderData) (G : Nat → Nat → GroupData)
    (d : Int) (w : ℚ × ℚ × ℚ) (hwf : hd.wf) (hnb : hd.nboundary = 0)
    (hG : GroupsWf hd G) :
    readAmrLoop d hd.toAmrHeader w (levelCpuPairs hd.toAmrHeader)
        ⟨bodyRecs hd G, hd.recs.length⟩ =
      .ok (pairsAdds d hd.toAmrHeader w G (bodyPairs hd),
           ⟨[], (mkAmrFile hd G).length⟩) ∧
    _read_amr d hd.toAmrHeader w hd.recs.length (mkAmrFile hd G) =
      .ok (pairsAdds d hd.toAmrHeader w G (bodyPairs hd)) := by
  have hpairs := levelCpuPairs_toAmrHeader hd
  have hbody := bodyRecs_eq_pairsRecs hd G hwf.2.1 hnb
  have hloop := readAmrLoop_spec d hd.toAmrHeader w G (bodyPairs hd)
    (pairs_hyp hd G hwf hnb hG) [] hd.recs.length
  rw [List.append_nil] at hloop
  have hflen : (mkAmrFile hd G).length =
      hd.recs.length + (pairsRecs hd.toAmrHeader G (bodyPairs hd)).length := by
    simp [mkAmrFile, hbody]
  have hloop' : readAmrLoop d hd.toAmrHeader w (levelCpuPairs hd.toAmrHeader)
      ⟨bodyRecs hd G, hd.recs.length⟩ =
      .ok (pairsAdds d hd.toAmrHeader w G (bodyPairs hd),
           ⟨[], (mkAmrFile hd G).length⟩) := by
    rw [hpairs, hbody, hloop, hflen]
  refine ⟨hloop', ?_⟩
  simp only [_read_amr, mkAmrFile, List.drop_left]
  rw [hloop']
  simp [mkAmrFile]

/-- Header parse plus populate on a well-formed boundary-free file. -/
theorem populate_wellFormed (hd : HeaderData) (G : Nat → Nat → GroupData)
    (d : Int) (w : ℚ × ℚ × ℚ) (hwf : hd.wf) (hnb : hd.nboundary = 0)
    (hG : GroupsWf hd G) (hd1 : 1 ≤ d) (hd2 : d ≤ (hd.ncpu : Int)) :
    populate d w (mkAmrFile hd G) =
      .ok (⟨hd.toAmrHeader, hd.recs.length,
            colSum (reshapeRows hd.numbl hd.nlevelmax hd.ncpu) (d - 1).toNat⟩,
           pairsAdds d hd.toAmrHeader w G (bodyPairs hd)) := by
  have hhdr := read_amr_header_spec hd hwf d hd1 hd2 (bodyRecs hd G)
  have hread := (read_amr_wellFormed hd G d w hwf hnb hG).2
  simp only [populate, mkAmrFile] at *
  rw [hhdr]
  simp only [ok_bind]
  rw [hread]
  simp

/-! ## Selection cache (`RAMSESDomainFile.select` / `.count`) -/

/-- A boolean oct/cell mask (numpy bool array). -/
abbrev Mask := List Bool

/-- `mask.sum()` on a boolean mask: its population count. -/
def maskSum (m : Mask) : Nat := m.count true

/-- An external Selector as this reader observes it: a Python object identity
(`id(selector)`) and whatever `selector.fill_mask(self)` returns for this
domain (possibly `None`, hence `Option`).  Two simultaneously live Python
objects have equal `id` only if they are the same object. -/
structure Selector where
  pyid : Nat
  mask : Option Mask
deriving DecidableEq, Repr

/-- The single-slot cache on a `RAMSESDomainFile`: `self._last_mask` and
`self._last_selector_id` (class attributes defaulting to `None`, lines
55-56). -/
structure CacheState where
  last_mask : Option Mask
  last_selector_id : Option Nat
deriving DecidableEq, Repr

/-- `RAMSESDomainFile.select` (source lines 138-143), with the attribute
mutation made explicit state passing, plus an instrumentation flag recording
whether `selector.fill_mask` was invoked (the spec's counting stub): if
`id(selector) == self._last_selector_id`, return the cached mask and leave
the state untouched; otherwise compute `fill_mask`, store mask and id, and
return the new mask. -/
def select (st : CacheState) (sel : Selector) : Option Mask × CacheState × Bool :=
  if some sel.pyid = st.last_selector_id then
    (st.last_mask, st, false)
  else
    (sel.mask, ⟨sel.mask, some sel.pyid⟩, true)

/-- `RAMSESDomainFile.count` (source lines 145-150), state passing: on a cache
hit return `0` if the cached mask is `None` and its population count
otherwise; on a miss, call `select` and then recursively call `count` again
(that is literally what the source does — the recursion terminates because
`select` always leaves `id(selector)` in the slot, so the inner call hits the
cache). -/
def count (st : CacheState) (sel : Selector) : Nat × CacheState :=
  if some sel.pyid = st.last_selector_id then
    (match st.last_mask with
     | none => 0
     | some m => maskSum m, st)
  else
    count (select st sel).2.1 sel
termination_by (if some sel.pyid = st.last_selector_id then 0 else 1)
decreasing_by
  simp_wf
  simp [select, *]

/-- The number of invocations of `count` (the initial call plus recursive
calls) performed by `count st sel`: same branch structure as `count`. -/
def countCalls (st : CacheState) (sel : Selector) : Nat :=
  if some sel.pyid = st.last_selector_id then 1
  else 1 + countCalls (select st sel).2.1 sel
termination_by (if some sel.pyid = st.last_selector_id then 0 else 1)
decreasing_by
  simp_wf
  simp [select, *]

/-! ## Chunking (`RAMSESGeometryHandler._chunk_all` / `_chunk_spatial` /
`_chunk_io`) -/

/-- `RAMSESDomainSubset`: a per-domain view `(domain, indices)`. -/
structure RAMSESDomainSubset where
  domain_id : Nat
  indices : List Nat
deriving DecidableEq, Repr

/-- `YTDataChunk(dobj, "all", oobjs, dobj.size)`. -/
structure YTDataChunk where
  chunk_type : String
  objs : List RAMSESDomainSubset
  size : Int
deriving DecidableEq, Repr

/-- The only exception the chunking methods can raise
(`NotImplementedError`; the spec calls it `UnsupportedChunkingStrategy`). -/
inductive ChunkErr where
  | notImplemented
deriving DecidableEq, Repr

/-- `RAMSESGeometryHandler._chunk_all` (source lines 238-240): a generator
yielding exactly one `YTDataChunk` of type `"all"` wrapping the selection's
Domain Subsets and its total size. -/
def _chunk_all (objs : List RAMSESDomainSubset) (size : Int) :
    Except ChunkErr (Option (List YTDataChunk)) :=
  .ok (some [⟨"all", objs, size⟩])

/-- `RAMSESGeometryHandler._chunk_spatial` (source lines 242-243):
`raise NotImplementedError`. -/
def _chunk_spatial : Except ChunkErr (Option (List YTDataChunk)) :=
  .error .notImplemented

/-- `RAMSESGeometryHandler._chunk_io` (source lines 245-246): the body is
`pass`, so the call returns Python `None` — no chunks, and no exception is
raised. -/
def _chunk_io : Except ChunkErr (Option (List YTDataChunk)) :=
  .ok none

/-! ## Initialization tail (`RAMSESGeometryHandler._initialize_oct_handler`) -/

/-- One line of console output from the initialization tail. -/
inductive OutLine where
  | totals (total_octs : Int) (nocts : Int)
  | ratioOut (r : ℚ)
deriving DecidableEq, Repr

/-- The consistency tail of `_initialize_oct_handler` (source lines 197-199),
run after every domain was populated.  The assert reconciling `total_octs`
with the container's count is commented out in the source; instead the code
unconditionally prints `total_octs` next to `oct_handler.nocts` and then
prints `total_octs / float(nocts)` — which raises `ZeroDivisionError` when
the container reports zero octs.  `nocts` (the external container's count) is
a parameter.  Returns the printed lines and `some ZeroDivisionError` if the
tail aborts, else `none`. -/
def initializeTail (total_octs : Int) (nocts : Int) : List OutLine × Option RErr :=
  if nocts = 0 then ([.totals total_octs nocts], some .zeroDivision)
  else ([.totals total_octs nocts, .ratioOut ((total_octs : ℚ) / (nocts : ℚ))], none)

/-- `total_octs = sum(dom.local_oct_count for dom in self.domains)`
(source line 186). -/
def totalOcts (local_oct_counts : List Int) : Int := local_oct_counts.sum

/-! ## Auxiliary lemmas for the claims -/

theorem getD_drop_int (l : List Int) (n i : Nat) :
    (l.drop n).getD i 0 = l.getD (n + i) 0 := by
  simp [List.getD_eq_getElem?_getD, List.getElem?_drop]

theorem getD_take_int (l : List Int) (n i : Nat) (h : i < n) :
    (l.take n).getD i 0 = l.getD i 0 := by
  simp [List.getD_eq_getElem?_getD, List.getElem?_take, h]

/-- The column sum over the reshaped `numbl` equals the sum over levels of
the flat header vector at offsets `l * ncpu + j`. -/
theorem colSum_reshape (flat : List Int) (r cols j : Nat) (hj : j < cols) :
    colSum (reshapeRows flat r cols) j =
      ((List.range r).map (fun l => flat.getD (l * cols + j) 0)).sum := by
  induction r generalizing flat with
  | zero => simp [colSum, reshapeRows]
  | succ r ih =>
    rw [List.range_succ_eq_map]
    simp only [colSum, reshapeRows, List.map_cons, List.sum_cons, List.map_map]
    rw [getD_take_int flat cols j hj]
    have ihr := ih (flat.drop cols)
    simp only [colSum] at ihr
    rw [ihr]
    have : ∀ l : Nat, (flat.drop cols).getD (l * cols + j) 0 =
        flat.getD ((l + 1) * cols + j) 0 := by
      intro l
      rw [getD_drop_int]
      congr 1
      ring
    simp only [Function.comp_def, this]
    congr 2
    · simp

theorem mkPos_length (xs ys zs : List ℚ) (w : ℚ × ℚ × ℚ) (n : Nat)
    (hx : xs.length = n) (hy : ys.length = n) (hz : zs.length = n) :
    (mkPos xs ys zs w).length = n := by
  simp [mkPos, hx, hy, hz]

/-- Row `j` of the submitted position matrix is exactly the `j`-th raw file
doubles multiplied componentwise by the domain width. -/
theorem mkPos_getD (xs ys zs : List ℚ) (w : ℚ × ℚ × ℚ) (n j : Nat)
    (hx : xs.length = n) (hy : ys.length = n) (hz : zs.length = n)
    (hj : j < n) :
    (mkPos xs ys zs w).getD j (0, 0, 0) =
      (xs.getD j 0 * w.1, ys.getD j 0 * w.2.1, zs.getD j 0 * w.2.2) := by
  have hlen : (mkPos xs ys zs w).length = n := mkPos_length xs ys zs w n hx hy hz
  have hzip2 : (ys.zip zs).length = n := by simp [hy, hz]
  have hzip : (xs.zip (ys.zip zs)).length = n := by simp [hx, hzip2]
  rw [List.getD_eq_getElem _ _ (by omega)]
  rw [List.getD_eq_getElem _ _ (by omega), List.getD_eq_getElem _ _ (by omega),
    List.getD_eq_getElem _ _ (by omega)]
  simp only [mkPos, List.getElem_map, List.getElem_zip, scaleRow]

/-! ## Concrete sample data and decidability -/

instance {e a : Type} [DecidableEq e] [DecidableEq a] : DecidableEq (Except e a) :=
  fun x y =>
    match x, y with
    | .error u, .error v => decidable_of_iff (u = v) (by simp)
    | .ok u, .ok v => decidable_of_iff (u = v) (by simp)
    | .error _, .ok _ => isFalse (by simp)
    | .ok _, .error _ => isFalse (by simp)

instance (g : GroupData) (n : Nat) : Decidable (g.wf n) := by
  unfold GroupData.wf; exact inferInstance

instance (hd : HeaderData) : Decidable hd.wf := by
  unfold HeaderData.wf; exact inferInstance

instance (hd : HeaderData) (G : Nat → Nat → GroupData) : Decidable (GroupsWf hd G) := by
  unfold GroupsWf; exact inferInstance

/-- A 2-domain, 1-level header: domain 1 owns 3 octs, domain 2 owns 2, no
boundary domains (the spec's §8 example). -/
def hdEx : HeaderData :=
  ⟨2, [2, 2, 2], 1, 0, 1, [3, 2], [], [], [], [], [0, 0, 0, 0, 0], [], [], [], [], []⟩

/-- A well-formed grid group carrying `n` grids. -/
def groupEx (n : Nat) : GroupData :=
  ⟨(List.range n).map Int.ofNat, [], [], List.replicate n (1/2 : ℚ),
   List.replicate n (1/4 : ℚ), List.replicate n (3/4 : ℚ), List.replicate n 0,
   [], [], [], [], [], [],
   List.replicate 8 (List.replicate n 7), List.replicate 8 (List.replicate n 1),
   List.replicate 8 (List.replicate n 0)⟩

/-- Group contents matching `hdEx`'s counts. -/
def GEx : Nat → Nat → GroupData := fun _ c => groupEx (if c = 0 then 3 else 2)

/-- A header with one boundary domain (`ncpu = 1`, `nboundary = 1`) whose
format prescribes an empty grid region (every count is zero). -/
def hdBd : HeaderData :=
  ⟨1, [2, 2, 2], 1, 1, 1, [0], [], [], [], [0], [0, 0, 0, 0, 0], [], [], [], [], []⟩

/-- All-empty group contents (well-formed for count 0). -/
def GBd : Nat → Nat → GroupData := fun _ _ => groupEx 0

/-- A unit domain width. -/
def wEx : ℚ × ℚ × ℚ := (1, 1, 1)

/-- A parsed header with `ncpu = 1`, `nboundary = 1`, `numbl = [[5]]`. -/
def hEx : AmrHeader := ⟨1, [2, 2, 2], 1, 1, 1, [[5]]⟩

/-! ## Claims -/

/-- C1: during populate, a record group read for `(level, cpu)` is submitted
to the Octree Container via `add(cpu + 1, level, ng, positions, indices,
owner_matrix)` if and only if `cpu + 1 ≥ domain_id`; a group with
`cpu + 1 < domain_id` is read — all 37 of its records are consumed and the
cursor advances exactly as in the submitted case — but discarded, so a
replicated oct is never submitted by a reader whose `domain_id` exceeds
`cpu + 1`. -/
theorem C1_ownership_dedup (d : Int) (h : AmrHeader) (w : ℚ × ℚ × ℚ)
    (level cpu : Nat) (g : GroupData) (ng : Int)
    (hng : _ng h cpu level = .ok ng) (hpos : 0 < ng) (hg : g.wf ng.toNat)
    (rest : List Rec) (p : Nat) :
    readChunk d h w level cpu ⟨g.recs ++ rest, p⟩ =
      .ok ((if d ≤ (cpu : Int) + 1 then [g.add level cpu ng w] else []),
           ⟨rest, p + 37⟩) ∧
    ((if d ≤ (cpu : Int) + 1 then [g.add level cpu ng w] else []) = [] ↔
      (cpu : Int) + 1 < d) := by
  refine ⟨readChunk_spec d h w level cpu g ng hng hpos hg rest p, ?_⟩
  by_cases hsub : d ≤ (cpu : Int) + 1
  · simp only [if_pos hsub]
    exact iff_of_false (by simp) (by omega)
  · simp only [if_neg hsub]
    exact iff_of_true trivial (by omega)

/-- Witness for C1 at a concrete discarded group: domain 2 reads the group
owned by `cpu + 1 = 1 < 2` and submits nothing, yet consumes its records. -/
theorem C1_ownership_dedup_witness :
    _ng hdEx.toAmrHeader 0 0 = .ok 3 ∧ (0 : Int) < 3 ∧
    (groupEx 3).wf (3 : Int).toNat ∧
    (readChunk 2 hdEx.toAmrHeader wEx 0 0 ⟨(groupEx 3).recs ++ [], 0⟩ =
      .ok ((if (2 : Int) ≤ ((0 : Nat) : Int) + 1 then [(groupEx 3).add 0 0 3 wEx]
            else []), ⟨[], 0 + 37⟩) ∧
     ((if (2 : Int) ≤ ((0 : Nat) : Int) + 1 then [(groupEx 3).add 0 0 3 wEx]
       else []) = [] ↔ ((0 : Nat) : Int) + 1 < 2)) :=
  ⟨by decide, by decide, by decide,
   C1_ownership_dedup 2 hdEx.toAmrHeader wEx 0 0 (groupEx 3) 3 (by decide)
     (by decide) (by decide) [] 0⟩

/-- C2 (amended to domain files without boundary domains — for
`nboundary > 0` populate instead dies with the `ngridbound` `NameError`, see
`C2_counterexample` and C3): on a well-formed boundary-free file the loop
consumes the grid region exactly, leaving the cursor at end-of-file, and
populate returns normally; and whenever the loop completes with the cursor
anywhere other than end-of-file, `_read_amr` fails with the final
cursor/end-of-file assertion (the spec's `TruncatedOrOversizedFileError`)
instead of returning. -/
theorem C2_exact_consumption (hd : HeaderData) (G : Nat → Nat → GroupData)
    (d : Int) (w : ℚ × ℚ × ℚ) (hwf : hd.wf) (hnb : hd.nboundary = 0)
    (hG : GroupsWf hd G) (hd1 : 1 ≤ d) (hd2 : d ≤ (hd.ncpu : Int)) :
    (readAmrLoop d hd.toAmrHeader w (levelCpuPairs hd.toAmrHeader)
        ⟨bodyRecs hd G, hd.recs.length⟩ =
      .ok (pairsAdds d hd.toAmrHeader w G (bodyPairs hd),
           ⟨[], (mkAmrFile hd G).length⟩)) ∧
    (∃ st adds, populate d w (mkAmrFile hd G) = .ok (st, adds)) ∧
    (∀ (d' : Int) (h' : AmrHeader) (w' : ℚ × ℚ × ℚ) (off : Nat)
        (file : FileRecs) (adds : List AddCall) (f' : FH),
      readAmrLoop d' h' w' (levelCpuPairs h') ⟨file.drop off, off⟩ =
          .ok (adds, f') →
      f'.pos ≠ file.length →
      _read_amr d' h' w' off file = .error .truncatedOrOversized) := by
  refine ⟨(read_amr_wellFormed hd G d w hwf hnb hG).1,
    ⟨_, _, populate_wellFormed hd G d w hwf hnb hG hd1 hd2⟩, ?_⟩
  intro d' h' w' off file adds f' hloop hne
  simp only [_read_amr, hloop, ok_bind, if_neg hne]
  rfl

/-- Witness for C2 on the spec's 2-domain example file. -/
theorem C2_exact_consumption_witness :
    hdEx.wf ∧ hdEx.nboundary = 0 ∧ GroupsWf hdEx GEx ∧
    (∃ st adds, populate 1 wEx (mkAmrFile hdEx GEx) = .ok (st, adds)) :=
  ⟨by decide, by decide, by decide,
   (C2_exact_consumption hdEx GEx 1 wEx (by decide) (by decide) (by decide)
     (by decide) (by decide)).2.1⟩

/-- Counterexample to C2 as stated: a well-formed domain file whose header
declares a boundary domain.  Its record layout matches its header (the grid
region is empty because every count is zero), yet populate raises the
`ngridbound` `NameError` at the first boundary owner instead of returning
with the cursor at end-of-file. -/
theorem C2_counterexample :
    WellFormedAmr (mkAmrFile hdBd GBd) ∧
    populate 1 wEx (mkAmrFile hdBd GBd) = .error .nameError :=
  ⟨⟨hdBd, GBd, by decide, by decide, rfl⟩, by decide⟩

/-- C3: `grid_count` (`_ng`) returns `numbl[l, c]` for `c < ncpu`; but for
`ncpu ≤ c` — the boundary-domain lookup the claim and spec describe — the
source evaluates the name `ngridbound`, which is a discarded local of
`_read_amr_header` and is not in scope in `_read_amr`, so the lookup raises
`NameError` instead of returning `ngridbound[c - ncpu + nboundary * l]`.
Evaluated here at the failing input `hEx` (`ncpu = 1`, `nboundary = 1`,
owner index 1, level 0). -/
theorem C3_grid_count_nameError :
    _ng hEx 0 0 = .ok 5 ∧
    _ng hEx 1 0 = .error .nameError ∧
    (∀ (h : AmrHeader) (c l : Nat), h.ncpu ≤ c →
      _ng h c l = .error .nameError) := by
  refine ⟨by decide, by decide, ?_⟩
  intro h c l hc
  have hlt : ¬ (c < h.ncpu) := by omega
  simp [_ng, hlt]

/-- Witness for C3's universal part at the failing input. -/
theorem C3_grid_count_nameError_witness :
    hEx.ncpu ≤ 1 ∧ _ng hEx 1 0 = .error .nameError :=
  ⟨by decide, C3_grid_count_nameError.2.2 hEx 1 0 (by decide)⟩

/-- C4: after a successful header parse, `amr_offset` is the cursor right
after the six schema records, the unconditional skip, the conditional
boundary block (two skips plus the `ngridbound` vector), the `free_mem`
record, the `ordering` record and the four final skips — which is exactly
where the grid region of a well-formed file begins — and `local_oct_count`
is the sum of this domain's `numbl` column, read off the flat header vector
at offsets `l * ncpu + (domain_id - 1)`. -/
theorem C4_amr_offset (hd : HeaderData) (hwf : hd.wf) (d : Int)
    (hd1 : 1 ≤ d) (hd2 : d ≤ (hd.ncpu : Int)) (rest : List Rec) :
    ∃ st, _read_amr_header d (hd.recs ++ rest) = .ok st ∧
      st.amr_offset =
        schemaRecCount + 1 + (if 0 < hd.nboundary then 3 else 0) + 1 + 1 + 4 ∧
      st.amr_offset = hd.recs.length ∧
      st.local_oct_count =
        ((List.range hd.nlevelmax).map
          (fun l => hd.numbl.getD (l * hd.ncpu + (d - 1).toNat) 0)).sum := by
  refine ⟨_, read_amr_header_spec hd hwf d hd1 hd2 rest, ?_, rfl, ?_⟩
  · rw [headerData_recs_length hd]
    by_cases hb : 0 < hd.nboundary <;> simp [hb, schemaRecCount]
  · exact colSum_reshape hd.numbl hd.nlevelmax hd.ncpu (d - 1).toNat (by omega)

/-- Witness for C4 on the concrete 2-domain header as domain 1. -/
theorem C4_amr_offset_witness :
    hdEx.wf ∧ (1 : Int) ≤ 1 ∧ (1 : Int) ≤ (hdEx.ncpu : Int) ∧
    (∃ st, _read_amr_header 1 (hdEx.recs ++ []) = .ok st ∧
      st.amr_offset =
        schemaRecCount + 1 + (if 0 < hdEx.nboundary then 3 else 0) + 1 + 1 + 4 ∧
      st.amr_offset = hdEx.recs.length ∧
      st.local_oct_count =
        ((List.range hdEx.nlevelmax).map
          (fun l => hdEx.numbl.getD (l * hdEx.ncpu + ((1 : Int) - 1).toNat) 0)).sum) :=
  ⟨by decide, by decide, by decide,
   C4_amr_offset hdEx (by decide) 1 (by decide) (by decide) []⟩

/-- C5: every submitted position matrix is the three raw double vectors of
the file scaled componentwise by the snapshot's domain width — row `j` is
exactly `(x_j * w_x, y_j * w_y, z_j * w_z)`, with no translation by the
domain left edge applied (the translation is commented out in the source). -/
theorem C5_positions_scaled (d : Int) (h : AmrHeader) (w : ℚ × ℚ × ℚ)
    (level cpu : Nat) (g : GroupData) (ng : Int)
    (hng : _ng h cpu level = .ok ng) (hpos : 0 < ng) (hg : g.wf ng.toNat)
    (rest : List Rec) (p : Nat) (hsub : d ≤ (cpu : Int) + 1) :
    readChunk d h w level cpu ⟨g.recs ++ rest, p⟩ =
      .ok ([g.add level cpu ng w], ⟨rest, p + 37⟩) ∧
    (g.add level cpu ng w).pos.length = ng.toNat ∧
    ∀ j < ng.toNat, (g.add level cpu ng w).pos.getD j (0, 0, 0) =
      (g.xs.getD j 0 * w.1, g.ys.getD j 0 * w.2.1, g.zs.getD j 0 * w.2.2) := by
  refine ⟨?_, mkPos_length _ _ _ _ _ hg.2.1 hg.2.2.1 hg.2.2.2.1,
    fun j hj => mkPos_getD _ _ _ _ _ j hg.2.1 hg.2.2.1 hg.2.2.2.1 hj⟩
  rw [readChunk_spec d h w level cpu g ng hng hpos hg rest p, if_pos hsub]

/-- Witness for C5 at a concrete submitted group. -/
theorem C5_positions_scaled_witness :
    _ng hdEx.toAmrHeader 0 0 = .ok 3 ∧ (0 : Int) < 3 ∧
    (groupEx 3).wf (3 : Int).toNat ∧ (1 : Int) ≤ ((0 : Nat) : Int) + 1 ∧
    (readChunk 1 hdEx.toAmrHeader wEx 0 0 ⟨(groupEx 3).recs ++ [], 0⟩ =
      .ok ([(groupEx 3).add 0 0 3 wEx], ⟨[], 0 + 37⟩) ∧
     ((groupEx 3).add 0 0 3 wEx).pos.length = (3 : Int).toNat ∧
     ∀ j < (3 : Int).toNat, ((groupEx 3).add 0 0 3 wEx).pos.getD j (0, 0, 0) =
       ((groupEx 3).xs.getD j 0 * wEx.1, (groupEx 3).ys.getD j 0 * wEx.2.1,
        (groupEx 3).zs.getD j 0 * wEx.2.2)) :=
  ⟨by decide, by decide, by decide, by decide,
   C5_positions_scaled 1 hdEx.toAmrHeader wEx 0 0 (groupEx 3) 3 (by decide)
     (by decide) (by decide) [] 0 (by decide)⟩

/-- C6: right after `select st sel`, a second `select` with the same selector
identity returns the identical cached mask with the state untouched and
without invoking `fill_mask` (instrumentation flag `false`); the returned
mask is the cached one; and a `select` with a different identity invokes
`fill_mask` (flag `true`), returns its mask, and overwrites the single cache
slot with the new mask and id. -/
theorem C6_select_cache (st : CacheState) (sel sel2 : Selector)
    (hne : sel2.pyid ≠ sel.pyid) :
    select (select st sel).2.1 sel =
      ((select st sel).1, (select st sel).2.1, false) ∧
    (select st sel).1 = (select st sel).2.1.last_mask ∧
    select (select st sel).2.1 sel2 =
      (sel2.mask, ⟨sel2.mask, some sel2.pyid⟩, true) := by
  by_cases hhit : some sel.pyid = st.last_selector_id
  · refine ⟨by simp [select, hhit], by simp [select, hhit], ?_⟩
    simp only [select, if_pos hhit]
    rw [if_neg (by rw [← hhit]; simpa using fun hcontra => hne hcontra)]
  · simp [select, hhit, hne]

/-- Witness for C6 with two distinct selectors on a fresh reader. -/
theorem C6_select_cache_witness :
    ((2 : Nat) ≠ 1) ∧
    (select (select ⟨none, none⟩ ⟨1, some [true, false]⟩).2.1
        ⟨1, some [true, false]⟩ =
      ((select ⟨none, none⟩ ⟨1, some [true, false]⟩).1,
       (select ⟨none, none⟩ ⟨1, some [true, false]⟩).2.1, false) ∧
     (select ⟨none, none⟩ ⟨1, some [true, false]⟩).1 =
       (select ⟨none, none⟩ ⟨1, some [true, false]⟩).2.1.last_mask ∧
     select (select ⟨none, none⟩ ⟨1, some [true, false]⟩).2.1 ⟨2, some [true]⟩ =
       (some [true], ⟨some [true], some 2⟩, true)) :=
  ⟨by decide, C6_select_cache ⟨none, none⟩ ⟨1, some [true, false]⟩
    ⟨2, some [true]⟩ (by decide)⟩

/-- C7: `count` always returns the population count of the mask `select`
yields for the same selector — `0` when that mask is `None` — and leaves the
cache in exactly the state `select` leaves it in: on a hit it counts the
cached mask without recomputation, on a miss it first runs `select` and then
counts the freshly cached mask. -/
theorem C7_count_popcount (st : CacheState) (sel : Selector) :
    (count st sel).1 =
      (match (select st sel).1 with
       | none => 0
       | some m => maskSum m) ∧
    (count st sel).2 = (select st sel).2.1 := by
  by_cases hhit : some sel.pyid = st.last_selector_id
  · rw [count]
    simp [hhit, select]
  · rw [count]
    simp only [if_neg hhit]
    rw [count]
    simp [select, hhit]

/-- C8 (amended: spatial chunking raises `NotImplementedError`, but I/O
chunking does *not* signal an error — its body is `pass`, so it returns
`None`): `_chunk_all` yields exactly one chunk, of type `"all"`, wrapping all
Domain Subsets of the selection together with the total selected size;
`_chunk_spatial` raises; `_chunk_io` returns `None` without raising. -/
theorem C8_single_chunk (objs : List RAMSESDomainSubset) (size : Int) :
    (∃ c, _chunk_all objs size = .ok (some [c]) ∧
      c.chunk_type = "all" ∧ c.objs = objs ∧ c.size = size) ∧
    _chunk_spatial = .error .notImplemented ∧
    _chunk_io = .ok none :=
  ⟨⟨⟨"all", objs, size⟩, rfl, rfl, rfl, rfl⟩, rfl, rfl⟩

/-- Counterexample to C8 as stated: requesting I/O-driven chunking does not
signal an unsupported-strategy error — `_chunk_io` returns `None`
successfully. -/
theorem C8_counterexample :
    _chunk_io = .ok none ∧ _chunk_io ≠ .error .notImplemented := by decide

/-- C9 (amended: the totals are printed unconditionally rather than as a
mismatch-triggered warning, and initialization only completes when the
container reports a nonzero count): after populating, the code prints the
submitted total next to the container's count — so a mismatch is visible and
never silently dropped, and no mismatch is fatal per se because the
reconciling assert is commented out — but it then prints
`total_octs / float(nocts)`, so a container count of zero aborts
initialization with `ZeroDivisionError`. -/
theorem C9_accounting (counts : List Int) (nocts : Int) (hn : nocts ≠ 0) :
    initializeTail (totalOcts counts) nocts =
      ([.totals (totalOcts counts) nocts,
        .ratioOut ((totalOcts counts : ℚ) / (nocts : ℚ))], none) ∧
    (initializeTail (totalOcts counts) 0).2 = some .zeroDivision :=
  ⟨by simp [initializeTail, hn], by simp [initializeTail]⟩

/-- Witness for C9 with five submitted octs against a container reporting
six. -/
theorem C9_accounting_witness :
    ((6 : Int) ≠ 0) ∧
    (initializeTail (totalOcts [3, 2]) 6 =
      ([.totals (totalOcts [3, 2]) 6, .ratioOut ((totalOcts [3, 2] : ℚ) / (6 : ℚ))],
       none) ∧
     (initializeTail (totalOcts [3, 2]) 0).2 = some .zeroDivision) :=
  ⟨by decide, C9_accounting [3, 2] 6 (by decide)⟩

/-- Counterexample to C9 as stated: with five octs submitted and a container
reporting zero, the counts disagree, yet initialization does not complete —
the ratio print divides by zero — so the mismatch is a fatal
`ZeroDivisionError`, not a non-fatal warning. -/
theorem C9_counterexample :
    totalOcts [3, 2] = 5 ∧ totalOcts [3, 2] ≠ 0 ∧
    initializeTail (totalOcts [3, 2]) 0 =
      ([.totals 5 0], some .zeroDivision) := by decide

/-- C10: `count` terminates, and its self-recursive call happens at most once
— the total number of `count` invocations is 1 on a cache hit and exactly 2
on a miss, because the `select` preceding the recursive call always stores
`id(selector)` in the cache slot, so the recursive invocation takes the
cached branch. -/
theorem C10_count_terminates (st : CacheState) (sel : Selector) :
    countCalls st sel =
      (if some sel.pyid = st.last_selector_id then 1 else 2) ∧
    countCalls st sel ≤ 2 ∧
    some sel.pyid = (select st sel).2.1.last_selector_id := by
  by_cases hhit : some sel.pyid = st.last_selector_id
  · rw [countCalls]
    simp [hhit, select]
  · rw [countCalls]
    rw [countCalls]
    simp [select, hhit]

end RamsesSpec
